import Mathlib

/-!
Verification development for the codec core of `src/ts4translatorTR.py`:
the RefPack decompressor (`decode_ref_pack`), the localization-table codec
(`StringTableFile.load_from_binary` / `StringTableFile.save_to_binary`) and the
DBPF container model (`DBPFFile.load_from_binary` / `DBPFFile.save_to_binary`).

The embedding is byte-faithful to the Python source:

* Python byte strings / bytearrays are `List Nat` (each element a byte value).
* Python slicing `l[a:b]` clamps out-of-range indices and never raises; this is
  `pySliceN` (non-negative indices) and `pySliceI` (possibly negative indices,
  which wrap from the end as in Python).
* Python indexing `l[i]` raises `IndexError` out of range; this is `pyByte`
  (and `pyGetI` for possibly-negative indices), returning `Option`/`Except`.
* Python `bytearray` slice assignment `l[a:b] = src` splices `src` in place of
  the clamped range, growing or shrinking the buffer when the lengths differ;
  this is `setSlice`.
* `int.from_bytes(_, "little")` of a (possibly short) slice is `readLE`.
* `n.to_bytes(k, "little")` raises `OverflowError` when `n ≥ 256^k`; this is
  the checked `bytesLE` (with `toLE` the unchecked byte expansion).
* External collaborators (zlib compress/decompress, UTF-8 encode/decode) are
  function parameters, as the specification treats them as collaborators.
* A Python function that catches all exceptions and returns a failure value is
  modelled with `Option`/`Except` plus the corresponding default.
-/

set_option maxRecDepth 8000
set_option linter.unnecessarySimpa false

/-! ### Python byte-level primitives -/

def pySliceN (l : List Nat) (a n : Nat) : List Nat := (l.drop a).take n

def pyByte (l : List Nat) (i : Nat) : Option Nat :=
  if i < l.length then some (l.getD i 0) else none

def pyGetI (l : List Nat) (i : Int) : Option Nat :=
  if 0 ≤ i then
    (if i < (l.length : Int) then some (l.getD i.toNat 0) else none)
  else
    (if 0 ≤ (l.length : Int) + i then some (l.getD ((l.length : Int) + i).toNat 0) else none)

def pySliceI (l : List Nat) (a b : Int) : List Nat :=
  let n : Int := l.length
  let a2 : Int := if a < 0 then max 0 (n + a) else min a n
  let b2 : Int := if b < 0 then max 0 (n + b) else min b n
  pySliceN l a2.toNat (b2.toNat - a2.toNat)

def setSlice (l : List Nat) (a b : Nat) (src : List Nat) : List Nat :=
  l.take a ++ src ++ l.drop b

def readLE (bs : List Nat) : Nat := bs.foldr (fun b acc => b + 256 * acc) 0

def toLE : Nat → Nat → List Nat
  | 0, _ => []
  | k + 1, n => n % 256 :: toLE k (n / 256)

def bytesLE (k n : Nat) : Option (List Nat) :=
  if n < 256 ^ k then some (toLE k n) else none

/-- The big-endian size-field read loop of `decode_ref_pack` (reads
`ibuf[start] … ibuf[start+cnt-1]` one byte at a time; the first out-of-range
index raises, which for a contiguous run means `start + cnt > len`). -/
def readBEbytes (ibuf : List Nat) (start cnt : Nat) : Option Nat :=
  if start + cnt ≤ ibuf.length then
    some ((pySliceN ibuf start cnt).foldl (fun a b => (a <<< 8) ||| b) 0)
  else none

/-! ### Python dict as an association list (insertion order preserved,
assignment to an existing key overwrites in place) -/

def dictFind {α : Type _} (d : List (Nat × α)) (k : Nat) : Option α :=
  (d.find? (fun p => p.1 == k)).map (fun p => p.2)

def dictInsert {α : Type _} (d : List (Nat × α)) (k : Nat) (v : α) : List (Nat × α) :=
  if (d.find? (fun p => p.1 == k)).isSome then
    d.map (fun p => if p.1 == k then (k, v) else p)
  else d ++ [(k, v)]

/-! ### RefPack decoder (`decode_ref_pack`, source lines 43-105) -/

/-- The back-reference copy loop (source lines 101-103):
`for _ in range(num_to_copy): obuf[optr] = obuf[optr - 1 - copy_offset]; optr += 1`.
The read happens before the write (Python evaluates the right-hand side first);
a negative read index wraps from the end of the buffer as Python indexing does;
an out-of-range read or write raises `IndexError`. -/
def copyLoop : Nat → Nat → List Nat → Nat → Except String (List Nat × Nat)
  | 0, _, obuf, optr => .ok (obuf, optr)
  | n + 1, off, obuf, optr =>
    match pyGetI obuf ((optr : Int) - 1 - (off : Int)) with
    | none => .error "IndexError"
    | some v =>
      if optr < obuf.length then copyLoop n off (obuf.set optr v) (optr + 1)
      else .error "IndexError"

/-- Opcode parsing: the `if cc0 <= ...` chain of the while-loop body (source
lines 61-95).  Returns `(num_plaintext, num_to_copy, copy_offset, iptr')` with
`iptr'` the input pointer after the opcode bytes.  `iptr` on entry points just
past the control byte `cc0`.  Note the class-B branch (`0x80-0xBF`): the source
reads `cc1 = ibuf[iptr]; iptr += 1; cc2 = ibuf[iptr]; iptr += 2`, so it reads
the bytes at offsets 0 and 1 but advances the pointer by 3 - the opcode
consumes 4 bytes in total and the byte after `cc2` is skipped unread. -/
def parseOp (ibuf : List Nat) (cc0 iptr : Nat) : Except String (Nat × Nat × Nat × Nat) :=
  if cc0 ≤ 0x7F then
    match pyByte ibuf iptr with
    | none => .error "IndexError"
    | some cc1 =>
      .ok (cc0 &&& 0x03, ((cc0 &&& 0x1C) >>> 2) + 3, ((cc0 &&& 0x60) <<< 3) + cc1, iptr + 1)
  else if cc0 ≤ 0xBF then
    match pyByte ibuf iptr with
    | none => .error "IndexError"
    | some cc1 =>
      match pyByte ibuf (iptr + 1) with
      | none => .error "IndexError"
      | some cc2 =>
        .ok ((cc1 &&& 0xC0) >>> 6, (cc0 &&& 0x3F) + 4, ((cc1 &&& 0x3F) <<< 8) + cc2, iptr + 3)
  else if cc0 ≤ 0xDF then
    match pyByte ibuf iptr with
    | none => .error "IndexError"
    | some cc1 =>
      match pyByte ibuf (iptr + 1) with
      | none => .error "IndexError"
      | some cc2 =>
        match pyByte ibuf (iptr + 2) with
        | none => .error "IndexError"
        | some cc3 =>
          .ok (cc0 &&& 0x03, ((cc0 &&& 0x0C) <<< 6) + cc3 + 5,
               ((cc0 &&& 0x10) <<< 12) + (cc1 <<< 8) + cc2, iptr + 3)
  else if cc0 ≤ 0xFB then
    .ok (((cc0 &&& 0x1F) <<< 2) + 4, 0, 0, iptr)
  else
    .ok (cc0 &&& 3, 0, 0, iptr)

/-- The `while iptr < len(ibuf)` loop of `decode_ref_pack`.  The input pointer
strictly increases every iteration (the control byte alone advances it), so
`ibuf.length` iterations always suffice; `fuel` only drives the recursion. -/
def refLoop (ibuf : List Nat) : Nat → Nat → Nat → List Nat → Except String (List Nat)
  | 0, iptr, _, obuf => if iptr < ibuf.length then .error "fuel" else .ok obuf
  | fuel + 1, iptr, optr, obuf =>
    if iptr < ibuf.length then
      let cc0 := ibuf.getD iptr 0
      match parseOp ibuf cc0 (iptr + 1) with
      | .error e => .error e
      | .ok (np, ntc, off, iptr2) =>
        let obuf2 := setSlice obuf optr (optr + np) (pySliceN ibuf iptr2 np)
        let iptr3 := iptr2 + np
        let optr2 := optr + np
        match copyLoop ntc off obuf2 optr2 with
        | .error e => .error e
        | .ok (obuf3, optr3) => refLoop ibuf fuel iptr3 optr3 obuf3
    else .ok obuf

/-- `decode_ref_pack` (source lines 43-105).  `ibuf[1]` must be `0xFB`;
the decoded size is read big-endian over 4 bytes when bit 7 of `ibuf[0]` is
set, else 3 bytes; the output buffer is pre-sized to that many zero bytes. -/
def decode_ref_pack (ibuf : List Nat) : Except String (List Nat) :=
  match pyByte ibuf 1 with
  | none => .error "IndexError"
  | some b1 =>
    if b1 ≠ 0xFB then .error "Invalid compressed data"
    else
      let flags := ibuf.getD 0 0
      let szLen := if flags &&& 0x80 ≠ 0 then 4 else 3
      match readBEbytes ibuf 2 szLen with
      | none => .error "IndexError"
      | some osize => refLoop ibuf ibuf.length (2 + szLen) 0 (List.replicate osize 0)

/-! ### Localization-table codec (`StringTableFile`, source lines 418-562) -/

structure StringTableEntry where
  key : Nat
  value : List Char
  flags : Nat
deriving DecidableEq

/-- `StringTableEntry.get_formatted_value` (source lines 424-429):
`self.value.replace("\r", "").replace("\n", "\\n")` when the value is
non-empty, else the empty string. -/
def StringTableEntry.get_formatted_value (e : StringTableEntry) : List Char :=
  if e.value ≠ [] then
    (e.value.filter (fun c => c ≠ '\r')).flatMap (fun c => if c = '\n' then ['\\', 'n'] else [c])
  else []

structure StringTableFile where
  strings : List (Nat × StringTableEntry)
deriving DecidableEq

/-- The `strings_length` accumulation loop of `save_to_binary`
(source lines 525-531): for each entry, the encoded length of the formatted
value plus 7 header bytes (4 key + 1 flag + 2 length). -/
def stblStringsLength (enc : List Char → List Nat) (strings : List (Nat × StringTableEntry)) : Nat :=
  strings.foldl
    (fun acc p =>
      let fv := p.2.get_formatted_value
      if fv ≠ [] then acc + ((enc fv).length + 7) else acc + 7)
    0

/-- The per-key record emission loop of `save_to_binary` (source lines
537-556), iterating the sorted key list.  A missing key would be a `KeyError`
(impossible for a real dict), a key `≥ 2^32` an `OverflowError` in
`key.to_bytes(4)`, a flag `≥ 256` a `ValueError` in `bytearray.append`, an
encoded length `≥ 2^16` an `OverflowError` in `len(...).to_bytes(2)`: all are
`none` here (the caller's `except` turns them into an empty result). -/
def stblRecords (enc : List Char → List Nat)
    (strings : List (Nat × StringTableEntry)) : List Nat → Option (List Nat)
  | [] => some []
  | k :: ks =>
    match dictFind strings k with
    | none => none
    | some e => do
      let kb ← bytesLE 4 k
      let fb ← if e.flags < 256 then some [e.flags] else none
      let fv := e.get_formatted_value
      let body ←
        if fv ≠ [] then do
          let lb ← bytesLE 2 (enc fv).length
          pure (lb ++ enc fv)
        else do
          let lb ← bytesLE 2 0
          pure lb
      let rest ← stblRecords enc strings ks
      pure (kb ++ fb ++ body ++ rest)

/-- `StringTableFile.save_to_binary` without the outer `try`/`except`
(source lines 509-558): STBL magic, version 5 (2 bytes), compression flag 0,
entry count (8 bytes), 2 reserved bytes, total strings length (4 bytes), then
the records in ascending key order. -/
def stblSaveE (enc : List Char → List Nat) (f : StringTableFile) : Option (List Nat) := do
  let num_entries := f.strings.length
  let nb ← bytesLE 8 num_entries
  let sl := stblStringsLength enc f.strings
  let slb ← bytesLE 4 sl
  let recs ← stblRecords enc f.strings
    (List.insertionSort (fun a b => a ≤ b) (f.strings.map (fun p => p.1)))
  pure ([83, 84, 66, 76] ++ toLE 2 5 ++ [0] ++ nb ++ [0, 0] ++ slb ++ recs)

/-- `StringTableFile.save_to_binary` (source lines 509-562): the `except`
branch returns `b""`. -/
def StringTableFile.save_to_binary (enc : List Char → List Nat) (f : StringTableFile) : List Nat :=
  (stblSaveE enc f).getD []

/-- The entry-reading loop of `StringTableFile.load_from_binary` (source lines
472-501).  Per iteration: 4-byte key (slices never raise), then `data[pos]`
for the flag byte - the only raise point; the per-entry `except` catches it
and `continue`s with `pos` keeping the advance already made.  The 2-byte
length and the value bytes are again slices; UTF-8 decoding uses
`errors="replace"` and never raises (the `except UnicodeError` branch is
unreachable). -/
def stblLoop (dec : List Nat → List Char) (data : List Nat) :
    Nat → Nat → List (Nat × StringTableEntry) → List (Nat × StringTableEntry)
  | 0, _, acc => acc
  | n + 1, pos, acc =>
    let key := readLE (pySliceN data pos 4)
    let pos2 := pos + 4
    match pyByte data pos2 with
    | none => stblLoop dec data n pos2 acc
    | some flags =>
      let len := readLE (pySliceN data (pos2 + 1) 2)
      let value := dec (pySliceN data (pos2 + 3) len)
      stblLoop dec data n (pos2 + 3 + len) (dictInsert acc key ⟨key, value, flags⟩)

/-- `StringTableFile.load_from_binary` (source lines 437-507): requires at
least 20 bytes, the `STBL` magic and version 5; reads the 8-byte entry count
at offset 7, skips the compression flag (offset 6), reserved bytes and the
informational strings-length field (offset 17), then parses entries from
offset 21.  Always returns `True` once the header checks pass. -/
def StringTableFile.load_from_binary (dec : List Nat → List Char) (data : List Nat) :
    Bool × StringTableFile :=
  if data.length < 20 then (false, ⟨[]⟩)
  else if pySliceN data 0 4 ≠ [83, 84, 66, 76] then (false, ⟨[]⟩)
  else if readLE (pySliceN data 4 2) ≠ 5 then (false, ⟨[]⟩)
  else
    let num_entries := readLE (pySliceN data 7 8)
    (true, ⟨stblLoop dec data num_entries 21 []⟩)

/-! ### DBPF container model (`DBPFFile`, source lines 107-416) -/

structure DBPFHeader where
  version : Nat
  index_major_version : Nat
  index_count : Nat
  index_offset : Nat
  index_size : Nat
deriving DecidableEq

structure DBPFEntry where
  type_id : Nat
  group_id : Nat
  instance_id : Nat
  offset : Nat
  size : Nat
deriving DecidableEq

structure DBPFFile where
  header : Option DBPFHeader
  entries : List DBPFEntry
  string_tables : List (Nat × StringTableFile)
deriving DecidableEq

def STBL_TYPE : Nat := 0x220557DA

/-- The constant-field information derived from the index flag word: the
shared type value (when bit 0 is set), the shared group value (bit 1), and
whether the extended-instance word is marked constant (bit 2).  The shared
extended-instance value itself is read before the loop but is unusable inside
it (see `indexStep`). -/
structure IdxConsts where
  tconst : Option Nat
  gconst : Option Nat
  ieconst : Bool

structure IdxState where
  pos : Nat
  entries : List DBPFEntry
  string_tables : List (Nat × StringTableFile)
deriving DecidableEq

/-- One iteration of the index-entry loop of `DBPFFile.load_from_binary`
(source lines 209-303), i.e. the body of `for i in range(index_count)` with
its per-entry `try`/`except`.

When `const_instance_ex` is set the source executes
`entry_inst_ex = int.from_bytes(data[index_pos+4:index_pos+8], "little")`
(line 226) - but `index_pos` is not defined anywhere in `load_from_binary`
(it only exists in `save_to_binary`), so this raises `NameError`, the
per-entry `except` catches it and `continue`s: the entry is skipped with
`pos` keeping only the type/group advances already made.

Otherwise: 64-bit instance id from two 32-bit words, offset/size/decompressed
size, an optional 2+2-byte codec pair when bit 31 of the size field is set
(default `(0, 1)`), the deleted sentinel `0xFFE0` skips the record, and for
`STBL_TYPE` entries the payload is decompressed per the codec id (`0` stored,
`0x5A42` zlib via the collaborator `zd`, `0xFFFE`/`0xFFFF` RefPack, anything
else a recoverable warning) and fed to `StringTableFile.load_from_binary`;
the inner `try`/`except` makes any decompression failure entry-local. -/
def indexStep (data : List Nat) (zd : List Nat → Nat → Option (List Nat))
    (dec : List Nat → List Char) (c : IdxConsts) (st : IdxState) : IdxState :=
  let tp := match c.tconst with
    | some v => (v, st.pos)
    | none => (readLE (pySliceN data st.pos 4), st.pos + 4)
  let entry_type := tp.1
  let gp := match c.gconst with
    | some v => (v, tp.2)
    | none => (readLE (pySliceN data tp.2 4), tp.2 + 4)
  let entry_group := gp.1
  let p2 := gp.2
  if c.ieconst then ⟨p2, st.entries, st.string_tables⟩
  else
    let entry_inst_ex := readLE (pySliceN data p2 4)
    let entry_inst := readLE (pySliceN data (p2 + 4) 4)
    let resource_offset := readLE (pySliceN data (p2 + 8) 4)
    let file_size0 := readLE (pySliceN data (p2 + 12) 4)
    let decompressed_size := readLE (pySliceN data (p2 + 16) 4)
    let p5 := p2 + 20
    let cp := if file_size0 &&& 0x80000000 ≠ 0
      then (readLE (pySliceN data p5 2), p5 + 4)
      else (0, p5)
    let comp1 := cp.1
    let p6 := cp.2
    let file_size := file_size0 &&& 0x7FFFFFFF
    if comp1 = 0xFFE0 then ⟨p6, st.entries, st.string_tables⟩
    else
      let entry : DBPFEntry :=
        ⟨entry_type, entry_group, entry_inst_ex <<< 32 ||| entry_inst, resource_offset, file_size⟩
      let entries2 := st.entries ++ [entry]
      let tables2 :=
        if entry_type = STBL_TYPE then
          let stbl_data := pySliceN data resource_offset file_size
          let payload : Option (List Nat) :=
            if comp1 = 0 then some stbl_data
            else if comp1 = 0x5A42 then zd stbl_data decompressed_size
            else if comp1 = 0xFFFE then (decode_ref_pack stbl_data).toOption
            else if comp1 = 0xFFFF then (decode_ref_pack stbl_data).toOption
            else none
          match payload with
          | none => st.string_tables
          | some pd =>
            let r := StringTableFile.load_from_binary dec pd
            if r.1 then dictInsert st.string_tables entry.instance_id r.2
            else st.string_tables
        else st.string_tables
      ⟨p6, entries2, tables2⟩

/-- The `for i in range(index_count)` loop over `indexStep`. -/
def indexLoop (data : List Nat) (zd : List Nat → Nat → Option (List Nat))
    (dec : List Nat → List Char) (c : IdxConsts) : Nat → IdxState → IdxState
  | 0, st => st
  | n + 1, st => indexLoop data zd dec c n (indexStep data zd dec c st)

/-- The body of `DBPFFile.load_from_binary` up to the final return value
(source lines 115-308), producing the mutated `DBPFFile` state.  All failure
returns happen before any entry or table is recorded, so they leave the empty
state; the final `return len(self.string_tables) > 0` is recovered from the
state by `DBPFFile.load_from_binary` below. -/
def DBPFFile.loadCore (zd : List Nat → Nat → Option (List Nat))
    (dec : List Nat → List Char) (data : List Nat) : DBPFFile :=
  if data.length < 96 then ⟨none, [], []⟩
  else if pySliceN data 0 4 ≠ [68, 66, 80, 70] then ⟨none, [], []⟩
  else if ¬(readLE (pySliceN data 4 4) = 2 ∧ readLE (pySliceN data 8 4) = 1) then ⟨none, [], []⟩
  else if ¬(readLE (pySliceN data 12 4) = 0 ∧ readLE (pySliceN data 16 4) = 0) then ⟨none, [], []⟩
  else
    let index_count := readLE (pySliceN data 36 4)
    let index_offset_low := readLE (pySliceN data 40 4)
    let index_size := readLE (pySliceN data 44 4)
    let index_offset_high := readLE (pySliceN data 64 4)
    let index_offset := if index_offset_high ≠ 0 then index_offset_high else index_offset_low
    if index_offset = 0 then ⟨none, [], []⟩
    else
      let header : DBPFHeader :=
        ⟨readLE (pySliceN data 4 4), readLE (pySliceN data 12 4),
         index_count, index_offset, index_size⟩
      let flags := readLE (pySliceN data index_offset 4)
      let p0 := index_offset + 4
      let tc := if flags &&& 1 ≠ 0 then (some (readLE (pySliceN data p0 4)), p0 + 4)
        else (none, p0)
      let gc := if flags &&& 2 ≠ 0 then (some (readLE (pySliceN data tc.2 4)), tc.2 + 4)
        else (none, tc.2)
      let iep := if flags &&& 4 ≠ 0 then (true, gc.2 + 4) else (false, gc.2)
      let st := indexLoop data zd dec ⟨tc.1, gc.1, iep.1⟩ index_count ⟨iep.2, [], []⟩
      ⟨some header, st.entries, st.string_tables⟩

/-- `DBPFFile.load_from_binary` (source lines 115-316).  Every early `return
False` happens with `self.string_tables` still empty, and the final return is
`len(self.string_tables) > 0`, so the boolean result is exactly the
non-emptiness of the decoded-table map of `loadCore`. -/
def DBPFFile.load_from_binary (zd : List Nat → Nat → Option (List Nat))
    (dec : List Nat → List Char) (data : List Nat) : Bool × DBPFFile :=
  let f := DBPFFile.loadCore zd dec data
  (!f.string_tables.isEmpty, f)

/-- First pass of `DBPFFile.save_to_binary` (source lines 326-345): for every
entry whose type is `STBL_TYPE` and whose instance id has a decoded table,
re-encode the table, compress it with the collaborator `zc`, append the result
to the buffer and record `(new_offset, new_size, decompressed_size)` keyed by
instance id. -/
def savePass1 (enc : List Char → List Nat) (zc : List Nat → List Nat)
    (tables : List (Nat × StringTableFile)) :
    List DBPFEntry → List Nat × List (Nat × (Nat × Nat × Nat)) →
    List Nat × List (Nat × (Nat × Nat × Nat))
  | [], acc => acc
  | e :: rest, acc =>
    let acc2 :=
      if e.type_id = STBL_TYPE then
        match dictFind tables e.instance_id with
        | some stbl =>
          let stbl_data := StringTableFile.save_to_binary enc stbl
          let compressed_data := zc stbl_data
          let new_offset := acc.1.length
          (acc.1 ++ compressed_data,
           dictInsert acc.2 e.instance_id (new_offset, compressed_data.length, stbl_data.length))
        | none => acc
      else acc
    savePass1 enc zc tables rest acc2

/-- One iteration of the second-pass index walk of `DBPFFile.save_to_binary`
(source lines 366-408).  Skips the type/group fields when not constant, reads
the instance id (when the extended word is constant it re-reads
`data[index_pos+4:index_pos+8]`, i.e. the first shared value after the flag
word), and for an updated instance overwrites offset, size (with bit 31
forced), decompressed size and the codec pair `(0x5A42, 1)` in place,
advancing 16 bytes; otherwise advances 12 bytes plus 4 more when bit 31 of
the field at `pos-8` is set.  `to_bytes(4)` overflow is `none`. -/
def pass2Step (updated : List (Nat × (Nat × Nat × Nat))) (ct cg cie : Bool)
    (index_pos : Nat) (data : List Nat) (pos : Nat) : Option (List Nat × Nat) :=
  let p1 := if ct then pos else pos + 4
  let p2 := if cg then p1 else p1 + 4
  let ip := if cie then (readLE (pySliceN data (index_pos + 4) 4), p2)
    else (readLE (pySliceN data p2 4), p2 + 4)
  let inst_ex := ip.1
  let p3 := ip.2
  let inst := readLE (pySliceN data p3 4)
  let p4 := p3 + 4
  let instance_id := inst_ex <<< 32 ||| inst
  match dictFind updated instance_id with
  | some u => do
    let ob ← bytesLE 4 u.1
    let sb ← bytesLE 4 (u.2.1 ||| 0x80000000)
    let db ← bytesLE 4 u.2.2
    let d1 := setSlice data p4 (p4 + 4) ob
    let d2 := setSlice d1 (p4 + 4) (p4 + 8) sb
    let d3 := setSlice d2 (p4 + 8) (p4 + 12) db
    let d4 := setSlice d3 (p4 + 12) (p4 + 14) (toLE 2 0x5A42)
    let d5 := setSlice d4 (p4 + 14) (p4 + 16) (toLE 2 1)
    some (d5, p4 + 16)
  | none =>
    let p5 := p4 + 12
    if readLE (pySliceI data ((p5 : Int) - 8) ((p5 : Int) - 4)) &&& 0x80000000 ≠ 0 then
      some (data, p5 + 4)
    else some (data, p5)

/-- The `for i in range(self.header.index_count)` loop over `pass2Step`. -/
def savePass2 (updated : List (Nat × (Nat × Nat × Nat))) (ct cg cie : Bool)
    (index_pos : Nat) : Nat → Option (List Nat × Nat) → Option (List Nat × Nat)
  | 0, s => s
  | n + 1, s =>
    savePass2 updated ct cg cie index_pos n
      (match s with
       | none => none
       | some dp => pass2Step updated ct cg cie index_pos dp.1 dp.2)

/-- `DBPFFile.save_to_binary` (source lines 318-416): copy the original
buffer, run the two passes, return `b""` on any exception (here: a missing
header when entries were updated - `self.header.index_offset` on `None` - or
an `OverflowError` while rewriting index fields). -/
def DBPFFile.save_to_binary (enc : List Char → List Nat) (zc : List Nat → List Nat)
    (f : DBPFFile) (original_data : List Nat) : List Nat :=
  let pr := savePass1 enc zc f.string_tables f.entries (original_data, [])
  let data := pr.1
  let updated := pr.2
  if updated.isEmpty then data
  else
    match f.header with
    | none => []
    | some h =>
      let index_pos := h.index_offset
      let flags := readLE (pySliceN data index_pos 4)
      let ct := (flags &&& 1) != 0
      let cg := (flags &&& 2) != 0
      let cie := (flags &&& 4) != 0
      let pos1 := index_pos + 4 + (if ct then 4 else 0) + (if cg then 4 else 0) +
        (if cie then 4 else 0)
      match savePass2 updated ct cg cie index_pos h.index_count (some (data, pos1)) with
      | none => []
      | some dp => dp.1

/-! ### Concrete collaborator instantiations and test fixtures -/

/-- Standard UTF-8 encoding of one Unicode scalar value (the collaborator
`str.encode("utf-8")`). -/
def utf8EncodeChar (c : Char) : List Nat :=
  let n := c.toNat
  if n < 128 then [n]
  else if n < 2048 then [192 + n / 64, 128 + n % 64]
  else if n < 65536 then [224 + n / 4096, 128 + n / 64 % 64, 128 + n % 64]
  else [240 + n / 262144, 128 + n / 4096 % 64, 128 + n / 64 % 64, 128 + n % 64]

def utf8Encode (s : List Char) : List Nat := s.flatMap utf8EncodeChar

/-- A byte-to-character decoder agreeing with UTF-8 (with replacement) on
ASCII-only byte strings; used to instantiate the decoder collaborator on
concrete fixtures. -/
def dec0 : List Nat → List Char := fun bs => bs.map Char.ofNat

/-- A zlib-decompress collaborator that always fails. -/
def zd0 : List Nat → Nat → Option (List Nat) := fun _ _ => none

/-- The identity as a (lossless, trivial) compression collaborator. -/
def zcId : List Nat → List Nat := fun l => l

/-- A 96-byte DBPF header with version (2,1), user version (0,0), the given
index count and (low) index offset, and zeroed remaining fields. -/
def dbpfHeaderBytes (count offLow : Nat) : List Nat :=
  [68, 66, 80, 70] ++ toLE 4 2 ++ toLE 4 1 ++ toLE 4 0 ++ toLE 4 0 ++
  toLE 4 0 ++ toLE 4 0 ++ toLE 4 0 ++ toLE 4 0 ++
  toLE 4 count ++ toLE 4 offLow ++ toLE 4 60 ++
  List.replicate 16 0 ++ toLE 4 0 ++ List.replicate 28 0

/-- The 21-byte serialization of an empty string table. -/
def stblEmptyBytes : List Nat :=
  [83, 84, 66, 76] ++ toLE 2 5 ++ [0] ++ toLE 8 0 ++ [0, 0] ++ toLE 4 0

/-- Archive whose index flag word is 4 (extended-instance constant): one
shared value, then a single 24-byte record without the extended word. -/
def archC3a : List Nat :=
  dbpfHeaderBytes 1 96 ++ toLE 4 4 ++ toLE 4 170 ++
  (toLE 4 291 ++ toLE 4 5 ++ toLE 4 7 ++ toLE 4 0 ++ toLE 4 0 ++ toLE 4 0)

/-- Archive whose index flag word is 1 (type constant, value 48879): two
28-byte records without the type field. -/
def archC3b : List Nat :=
  dbpfHeaderBytes 2 96 ++ toLE 4 1 ++ toLE 4 48879 ++
  (toLE 4 1 ++ toLE 4 2 ++ toLE 4 3 ++ toLE 4 0 ++ toLE 4 0 ++ toLE 4 0) ++
  (toLE 4 4 ++ toLE 4 5 ++ toLE 4 6 ++ toLE 4 0 ++ toLE 4 0 ++ toLE 4 0)

/-- Archive with a single string-table entry whose 2-byte payload `[0, 0]` is
marked RefPack-compressed but has an invalid RefPack signature. -/
def archC7a : List Nat :=
  dbpfHeaderBytes 1 98 ++ [0, 0] ++ toLE 4 0 ++
  (toLE 4 STBL_TYPE ++ toLE 4 0 ++ toLE 4 0 ++ toLE 4 1 ++ toLE 4 96 ++
   toLE 4 (2147483648 + 2) ++ toLE 4 0 ++ toLE 2 65534 ++ toLE 2 0)

/-- Archive with two string-table entries: the first with the invalid RefPack
payload of `archC7a`, the second an uncompressed valid empty string table. -/
def archC7b : List Nat :=
  dbpfHeaderBytes 2 119 ++ [0, 0] ++ stblEmptyBytes ++ toLE 4 0 ++
  (toLE 4 STBL_TYPE ++ toLE 4 0 ++ toLE 4 0 ++ toLE 4 1 ++ toLE 4 96 ++
   toLE 4 (2147483648 + 2) ++ toLE 4 0 ++ toLE 2 65534 ++ toLE 2 0) ++
  (toLE 4 STBL_TYPE ++ toLE 4 0 ++ toLE 4 0 ++ toLE 4 2 ++ toLE 4 98 ++
   toLE 4 21 ++ toLE 4 0)

/-- Archive with an uncompressed string-table entry (28-byte index record,
no codec pair) followed by a second, non-table entry (type `0x11111111`). -/
def archC4 : List Nat :=
  dbpfHeaderBytes 2 117 ++ stblEmptyBytes ++ toLE 4 0 ++
  (toLE 4 STBL_TYPE ++ toLE 4 0 ++ toLE 4 0 ++ toLE 4 1 ++ toLE 4 96 ++
   toLE 4 21 ++ toLE 4 0) ++
  (toLE 4 286331153 ++ toLE 4 0 ++ toLE 4 0 ++ toLE 4 5 ++ toLE 4 300 ++
   toLE 4 0 ++ toLE 4 0)

/-- Archive with one zlib-compressed string-table entry (32-byte index record
with codec pair `(0x5A42, 1)`). -/
def arch10 : List Nat :=
  dbpfHeaderBytes 1 99 ++ [1, 2, 3] ++ toLE 4 0 ++
  (toLE 4 STBL_TYPE ++ toLE 4 0 ++ toLE 4 0 ++ toLE 4 7 ++ toLE 4 96 ++
   toLE 4 (2147483648 + 3) ++ toLE 4 21 ++ toLE 2 23106 ++ toLE 2 1)

/-- A zlib-decompress collaborator returning the empty-table bytes. -/
def zd10 : List Nat → Nat → Option (List Nat) := fun _ _ => some stblEmptyBytes

/-- A conforming 3-byte class-B RefPack stream: decoded size 5, opcode
`80 40 00` (1 literal, copy 4 at distance 1), literal byte `A`. -/
def refIn9 : List Nat := [0, 251, 0, 0, 5, 128, 64, 0, 65]

/-- The same stream with one padding byte `0xEE` inserted after the three
class-B opcode bytes. -/
def refInPadA : List Nat := [0, 251, 0, 0, 5, 128, 64, 0, 238, 65]

/-- The same stream with padding byte `0x07` instead. -/
def refInPadB : List Nat := [0, 251, 0, 0, 5, 128, 64, 0, 7, 65]

/-- A RefPack stream with declared decoded size 1 whose single terminal
opcode `0xFF` carries 3 literal bytes. -/
def refGrow : List Nat := [0, 251, 0, 0, 1, 255, 65, 66, 67]

/-! ### Proof-support definitions for the table-codec round trip -/

/-- The byte layout of one string-table record `(key, flags, payload)`:
4-byte key, 1 flag byte, 2-byte payload length, payload. -/
def recB (r : Nat × Nat × List Nat) : List Nat :=
  toLE 4 r.1 ++ [r.2.1] ++ toLE 2 r.2.2.length ++ r.2.2

/-- The record triple `save_to_binary` emits for key `k`: the dict entry's
flag byte and the encoded formatted value (empty when the formatted value is
empty, matching the zero-length branch of the source). -/
def recTriple (enc : List Char → List Nat) (strings : List (Nat × StringTableEntry))
    (k : Nat) : Nat × Nat × List Nat :=
  let e := (dictFind strings k).getD ⟨0, [], 0⟩
  let fv := e.get_formatted_value
  (k, e.flags, if fv = [] then [] else enc fv)

/-- A table with one entry, key `0x1001`, value `"Hello"`, flag 0. -/
def helloTable : StringTableFile := ⟨[(4097, ⟨4097, ['H', 'e', 'l', 'l', 'o'], 0⟩)]⟩

/-- The entries of `bigTable`: 65536 entries (keys `0 … 65535`), each value a
run of 65535 `a` characters. -/
def bigTableStrings : List (Nat × StringTableEntry) :=
  (List.range 65536).map (fun k => (k, ⟨k, List.replicate 65535 'a', 0⟩))

/-- A localization table with 65536 entries (keys `0 … 65535`), each value a
run of 65535 `a` characters: every key fits in 32 bits and every value
encodes to exactly 65535 UTF-8 bytes, yet the total payload length
`65536 * 65542` overflows the 4-byte `strings_length` field. -/
def bigTable : StringTableFile := ⟨bigTableStrings⟩

deriving instance DecidableEq for Except

/-- A concrete 32-byte index record: type `STBL_TYPE`, group 9, instance
`(1 <<< 32) ||| 2`, offset 50, size 10 with bit 31 set, decompressed size 99
and the unknown codec pair `(0x1234, 0)`. -/
def rec8 : List Nat :=
  toLE 4 0x220557DA ++ toLE 4 9 ++ toLE 4 1 ++ toLE 4 2 ++ toLE 4 50 ++
  toLE 4 (2147483648 + 10) ++ toLE 4 99 ++ toLE 2 4660 ++ toLE 2 0
/-! ### Basic byte and list lemmas -/

theorem toLE_length (k : Nat) : ∀ n, (toLE k n).length = k := by
  induction k with
  | zero => intro n; rfl
  | succ k ih => intro n; simp [toLE, ih]

theorem readLE_cons (b : Nat) (t : List Nat) : readLE (b :: t) = b + 256 * readLE t := rfl

theorem readLE_toLE (k : Nat) : ∀ n, n < 256 ^ k → readLE (toLE k n) = n := by
  induction k with
  | zero => intro n h; interval_cases n; rfl
  | succ k ih =>
    intro n h
    have hdiv : n / 256 < 256 ^ k := by
      have : n < 256 ^ k * 256 := by
        calc n < 256 ^ (k + 1) := h
        _ = 256 ^ k * 256 := by ring
      exact Nat.div_lt_of_lt_mul (by omega)
    simp [toLE, readLE_cons, ih _ hdiv]
    omega

theorem drop_append_len (a b : List Nat) : (a ++ b).drop a.length = b := by
  induction a with
  | nil => rfl
  | cons x t ih => simpa using ih

theorem take_append_len (a b : List Nat) : (a ++ b).take a.length = a := by
  induction a with
  | nil => rfl
  | cons x t ih => simpa using ih

theorem drop_append_add (a b : List Nat) (k : Nat) : (a ++ b).drop (a.length + k) = b.drop k := by
  induction a with
  | nil => simp
  | cons x t ih => simpa [Nat.succ_add] using ih

theorem pySliceN_append (a b : List Nat) (k n : Nat) :
    pySliceN (a ++ b) (a.length + k) n = pySliceN b k n := by
  simp [pySliceN, drop_append_add]

theorem pySliceN_at_len (a b : List Nat) (n : Nat) :
    pySliceN (a ++ b) a.length n = b.take n := by
  simpa using pySliceN_append a b 0 n

theorem take_append_exact (a b : List Nat) (n : Nat) (h : a.length = n) :
    (a ++ b).take n = a := by
  subst h; exact take_append_len a b

theorem getD_eq_headD_drop (l : List Nat) (i d : Nat) : l.getD i d = (l.drop i).headD d := by
  induction l generalizing i with
  | nil => cases i <;> rfl
  | cons x t ih => cases i with
    | zero => rfl
    | succ j => simpa using ih j

theorem getD_append_add (a b : List Nat) (k d : Nat) :
    (a ++ b).getD (a.length + k) d = b.getD k d := by
  rw [getD_eq_headD_drop, drop_append_add, ← getD_eq_headD_drop]

theorem getD_set_self (l : List Nat) (i v d : Nat) (h : i < l.length) :
    (l.set i v).getD i d = v := by
  induction l generalizing i with
  | nil => simp at h
  | cons x t ih => cases i with
    | zero => rfl
    | succ j => simpa using ih j (by simpa using h)

theorem getD_set_ne (l : List Nat) (i j v d : Nat) (h : i ≠ j) :
    (l.set i v).getD j d = l.getD j d := by
  induction l generalizing i j with
  | nil => simp [List.set]
  | cons x t ih => cases i with
    | zero => cases j with
      | zero => exact absurd rfl h
      | succ m => rfl
    | succ n => cases j with
      | zero => rfl
      | succ m => simpa using ih n m (by omega)

/-! ### The RefPack copy loop: overlapping byte-at-a-time semantics -/

theorem copyLoop_spec (off : Nat) : ∀ (cnt : Nat) (obuf : List Nat) (optr : Nat),
    off + 1 ≤ optr → optr + cnt ≤ obuf.length →
    ∃ r, copyLoop cnt off obuf optr = .ok (r, optr + cnt) ∧ r.length = obuf.length ∧
      ∀ i, r.getD i 0 =
        if optr ≤ i ∧ i < optr + cnt then
          obuf.getD (optr - (off + 1) + (i - optr) % (off + 1)) 0
        else obuf.getD i 0 := by
  intro cnt
  induction cnt with
  | zero =>
    intro obuf optr h1 h2
    refine ⟨obuf, rfl, rfl, ?_⟩
    intro i
    rw [if_neg (by omega)]
  | succ n ih =>
    intro obuf optr h1 h2
    have hidx : ((optr : Int) - 1 - (off : Int)) = ((optr - (off + 1) : Nat) : Int) := by
      omega
    have hlt : optr - (off + 1) < obuf.length := by omega
    have hget : pyGetI obuf ((optr : Int) - 1 - (off : Int)) =
        some (obuf.getD (optr - (off + 1)) 0) := by
      rw [hidx]
      simp only [pyGetI]
      rw [if_pos (by positivity), if_pos (by exact_mod_cast hlt)]
      simp
    have hwr : optr < obuf.length := by omega
    obtain ⟨r, hr, hlen, hpt⟩ := ih (obuf.set optr (obuf.getD (optr - (off + 1)) 0)) (optr + 1)
      (by omega) (by simpa using (by omega : optr + 1 + n ≤ obuf.length))
    refine ⟨r, ?_, ?_, ?_⟩
    · show copyLoop (n + 1) off obuf optr = _
      simp only [copyLoop, hget, if_pos hwr]
      rw [hr]
      congr 2
      omega
    · rw [hlen]; simp
    · intro i
      have h' := hpt i
      by_cases hlo : optr ≤ i
      · by_cases hhi : i < optr + (n + 1)
        · rw [if_pos ⟨hlo, hhi⟩]
          by_cases heq : i = optr
          · subst heq
            rw [if_neg (by omega)] at h'
            rw [h', getD_set_self _ _ _ _ hwr]
            simp
          · rw [if_pos ⟨by omega, by omega⟩] at h'
            rw [h']
            -- index arithmetic: let P := off + 1, j := i - optr ≥ 1
            have hP : 0 < off + 1 := by omega
            set P := off + 1 with hPdef
            have hj1 : 1 ≤ i - optr := by omega
            set j := i - optr with hjdef
            have hsub : i - (optr + 1) = j - 1 := by omega
            rw [hsub]
            have hq := Nat.div_add_mod (j - 1) P
            set q := (j - 1) / P with hqdef
            set r' := (j - 1) % P with hrdef
            have hrP : r' < P := Nat.mod_lt _ hP
            by_cases hlast : r' = P - 1
            · -- j is a multiple of P: the copy wraps to the byte just written
              have hjj : j = P * q + P := by omega
              have hmod : j % P = 0 := by
                rw [hjj, Nat.add_mod, Nat.mul_mod_right, Nat.zero_add, Nat.mod_mod_of_dvd,
                  Nat.mod_self]
                exact dvd_refl P
              have hix : optr + 1 - P + r' = optr := by omega
              rw [hix, getD_set_self _ _ _ _ hwr, hmod]
              simp
            · have hmod : j % P = r' + 1 := by
                have hjj : j = P * q + (r' + 1) := by omega
                rw [hjj, Nat.add_mod, Nat.mul_mod_right, Nat.zero_add, Nat.mod_mod_of_dvd,
                  Nat.mod_eq_of_lt (by omega)]
                exact dvd_refl P
              have hne : optr + 1 - P + r' ≠ optr := by omega
              rw [getD_set_ne _ _ _ _ _ (fun he => hne he.symm), hmod]
              congr 1
              omega
        · rw [if_neg (by omega)]
          rw [if_neg (by omega)] at h'
          rw [h', getD_set_ne _ _ _ _ _ (by omega)]
      · rw [if_neg (by omega)]
        rw [if_neg (by omega)] at h'
        rw [h', getD_set_ne _ _ _ _ _ (by omega)]

/-- A copy opcode that would write at or past the end of the pre-sized output
buffer always raises (either the wrapped read or the write is out of range). -/
theorem copyLoop_overflow (cnt off : Nat) (obuf : List Nat) (optr : Nat)
    (hc : cnt ≠ 0) (ho : obuf.length ≤ optr) :
    ∃ e, copyLoop cnt off obuf optr = .error e := by
  cases cnt with
  | zero => exact absurd rfl hc
  | succ n =>
    simp only [copyLoop]
    cases hg : pyGetI obuf ((optr : Int) - 1 - (off : Int)) with
    | none => exact ⟨"IndexError", rfl⟩
    | some v =>
      show ∃ e, (if optr < obuf.length then copyLoop n off (obuf.set optr v) (optr + 1)
        else Except.error "IndexError") = Except.error e
      rw [if_neg (by omega)]
      exact ⟨"IndexError", rfl⟩

/-- All four header validations of `DBPFFile.load_from_binary` (size, magic,
format version, user version) lead to the failed empty state. -/
theorem loadCore_header_fail (zd : List Nat → Nat → Option (List Nat))
    (dec : List Nat → List Char) (data : List Nat)
    (h : data.length < 96 ∨ pySliceN data 0 4 ≠ [68, 66, 80, 70] ∨
      ¬(readLE (pySliceN data 4 4) = 2 ∧ readLE (pySliceN data 8 4) = 1) ∨
      ¬(readLE (pySliceN data 12 4) = 0 ∧ readLE (pySliceN data 16 4) = 0)) :
    DBPFFile.loadCore zd dec data = ⟨none, [], []⟩ := by
  by_cases h1 : data.length < 96
  · rw [DBPFFile.loadCore, if_pos h1]
  · by_cases h2 : pySliceN data 0 4 ≠ [68, 66, 80, 70]
    · rw [DBPFFile.loadCore, if_neg h1, if_pos h2]
    · by_cases h3 : ¬(readLE (pySliceN data 4 4) = 2 ∧ readLE (pySliceN data 8 4) = 1)
      · rw [DBPFFile.loadCore, if_neg h1, if_neg h2, if_pos h3]
      · by_cases h4 : ¬(readLE (pySliceN data 12 4) = 0 ∧ readLE (pySliceN data 16 4) = 0)
        · rw [DBPFFile.loadCore, if_neg h1, if_neg h2, if_neg h3, if_pos h4]
        · tauto

/-- The boolean returned by `DBPFFile.load_from_binary` is exactly the
non-emptiness of the decoded-table map. -/
theorem load_ok_iff_tables (zd : List Nat → Nat → Option (List Nat))
    (dec : List Nat → List Char) (data : List Nat) :
    (DBPFFile.load_from_binary zd dec data).1 = true ↔
      (DBPFFile.load_from_binary zd dec data).2.string_tables ≠ [] := by
  show (!(DBPFFile.loadCore zd dec data).string_tables.isEmpty) = true ↔
    (DBPFFile.loadCore zd dec data).string_tables ≠ []
  generalize (DBPFFile.loadCore zd dec data).string_tables = l
  cases l <;> simp

/-- Processing one index record with no constant fields, a size field with the
compression bit set, and an unknown codec id: the entry is appended, no table
is recorded, and the position advances past the full 32-byte record. -/
theorem indexStep_unknown_codec (data : List Nat) (zd : List Nat → Nat → Option (List Nat))
    (dec : List Nat → List Char) (st : IdxState)
    (hbit : readLE (pySliceN data (st.pos + 4 + 4 + 12) 4) &&& 0x80000000 ≠ 0)
    (h1 : readLE (pySliceN data (st.pos + 4 + 4 + 20) 2) ≠ 0)
    (h2 : readLE (pySliceN data (st.pos + 4 + 4 + 20) 2) ≠ 0x5A42)
    (h3 : readLE (pySliceN data (st.pos + 4 + 4 + 20) 2) ≠ 0xFFFE)
    (h4 : readLE (pySliceN data (st.pos + 4 + 4 + 20) 2) ≠ 0xFFFF)
    (h5 : readLE (pySliceN data (st.pos + 4 + 4 + 20) 2) ≠ 0xFFE0) :
    indexStep data zd dec ⟨none, none, false⟩ st =
      ⟨st.pos + 4 + 4 + 20 + 4,
       st.entries ++
         [⟨readLE (pySliceN data st.pos 4), readLE (pySliceN data (st.pos + 4) 4),
           readLE (pySliceN data (st.pos + 4 + 4) 4) <<< 32 |||
             readLE (pySliceN data (st.pos + 4 + 4 + 4) 4),
           readLE (pySliceN data (st.pos + 4 + 4 + 8) 4),
           readLE (pySliceN data (st.pos + 4 + 4 + 12) 4) &&& 0x7FFFFFFF⟩],
       st.string_tables⟩ := by
  simp only [indexStep, if_pos hbit, if_neg h5]
  by_cases ht : readLE (pySliceN data st.pos 4) = STBL_TYPE
  · rw [if_pos ht, if_neg h1, if_neg h2, if_neg h3, if_neg h4]
    simp
  · rw [if_neg ht]
    simp

/-- The first save pass appends to the buffer exactly one compressed encoded
table per entry whose type is `STBL_TYPE` and whose instance id has a decoded
table - there is no modification check of any kind. -/
theorem savePass1_append (enc : List Char → List Nat) (zc : List Nat → List Nat)
    (tables : List (Nat × StringTableFile)) :
    ∀ (entries : List DBPFEntry) (data0 : List Nat) (upd0 : List (Nat × (Nat × Nat × Nat))),
    (savePass1 enc zc tables entries (data0, upd0)).1 =
      data0 ++ (List.flatten ((entries.filter
        (fun e => e.type_id == STBL_TYPE && (dictFind tables e.instance_id).isSome)).map
        (fun e => zc (StringTableFile.save_to_binary enc
          ((dictFind tables e.instance_id).getD ⟨[]⟩))))) := by
  intro entries
  induction entries with
  | nil => intro data0 upd0; simp [savePass1]
  | cons e rest ih =>
    intro data0 upd0
    by_cases ht : e.type_id = STBL_TYPE
    · cases hf : dictFind tables e.instance_id with
      | none =>
        have hcond : (e.type_id == STBL_TYPE && (dictFind tables e.instance_id).isSome) = false := by
          rw [hf]; simp
        simp only [savePass1, if_pos ht, hf]
        rw [ih data0 upd0, List.filter_cons, if_neg (by simp [hcond])]
      | some stbl =>
        have hcond : (e.type_id == STBL_TYPE && (dictFind tables e.instance_id).isSome) = true := by
          rw [hf]; simp [ht]
        simp only [savePass1, if_pos ht, hf]
        rw [ih, List.filter_cons, if_pos (by simp [hcond])]
        simp [hf, List.append_assoc]
    · have hcond : (e.type_id == STBL_TYPE && (dictFind tables e.instance_id).isSome) = false := by
        simp [ht]
      simp only [savePass1, if_neg ht]
      rw [ih data0 upd0, List.filter_cons, if_neg (by simp [hcond])]

/-! ### Dict lemmas -/

theorem dictFind_eq_none {α : Type _} (d : List (Nat × α)) (k : Nat)
    (h : ∀ p ∈ d, p.1 ≠ k) : dictFind d k = none := by
  unfold dictFind
  rw [List.find?_eq_none.mpr]
  · rfl
  · intro p hp
    simpa using h p hp

theorem dictFind_isSome_iff {α : Type _} (d : List (Nat × α)) (k : Nat) :
    (dictFind d k).isSome ↔ k ∈ d.map Prod.fst := by
  induction d with
  | nil => simp [dictFind]
  | cons p t ih =>
    unfold dictFind at *
    rw [List.find?_cons]
    by_cases hp : p.1 = k
    · simp [hp]
    · have : (p.1 == k) = false := by simp [hp]
      simp [this, ih, hp, Ne.symm hp]

theorem dictFind_mem {α : Type _} (d : List (Nat × α)) (k : Nat) (e : α)
    (h : dictFind d k = some e) : (k, e) ∈ d := by
  unfold dictFind at h
  cases hf : d.find? (fun p => p.1 == k) with
  | none => rw [hf] at h; simp at h
  | some p =>
    rw [hf] at h
    simp at h
    have hmem := List.mem_of_find?_eq_some hf
    have hkey : p.1 = k := by simpa using List.find?_some hf
    have : p = (k, e) := by
      cases p; simp_all
    rwa [this] at hmem

theorem dictInsert_append {α : Type _} (d : List (Nat × α)) (k : Nat) (v : α)
    (h : ∀ p ∈ d, p.1 ≠ k) : dictInsert d k v = d ++ [(k, v)] := by
  unfold dictInsert
  rw [if_neg]
  rw [List.find?_eq_none.mpr]
  · simp
  · intro p hp
    simpa using h p hp

theorem dictFind_map_keys (E : Nat → StringTableEntry) :
    ∀ (ks : List Nat) (k : Nat),
    dictFind (ks.map (fun k => (k, E k))) k = if k ∈ ks then some (E k) else none := by
  intro ks
  induction ks with
  | nil => intro k; simp [dictFind]
  | cons k0 t ih =>
    intro k
    unfold dictFind
    rw [List.map_cons, List.find?_cons]
    by_cases hk : k0 = k
    · subst hk
      simp
    · have : ((k0, E k0).1 == k) = false := by simp [hk]
      rw [this]
      have := ih k
      unfold dictFind at this
      rw [this]
      by_cases hm : k ∈ t <;> simp [hm, hk, Ne.symm hk]

theorem foldl_dictInsert_eq (dec : List Nat → List Char) :
    ∀ (R : List (Nat × Nat × List Nat)) (acc : List (Nat × StringTableEntry)),
    (R.map (fun r => r.1)).Nodup →
    (∀ r ∈ R, ∀ p ∈ acc, p.1 ≠ r.1) →
    R.foldl (fun a r => dictInsert a r.1 ⟨r.1, dec r.2.2, r.2.1⟩) acc =
      acc ++ R.map (fun r => (r.1, (⟨r.1, dec r.2.2, r.2.1⟩ : StringTableEntry))) := by
  intro R
  induction R with
  | nil => intro acc _ _; simp
  | cons r t ih =>
    intro acc hnd hdis
    rw [List.foldl_cons]
    rw [dictInsert_append _ _ _ (fun p hp => hdis r (by simp) p hp)]
    have hnd' : (t.map (fun r => r.1)).Nodup := (List.nodup_cons.mp (by simpa using hnd)).2
    have hknotin : r.1 ∉ t.map (fun r => r.1) := (List.nodup_cons.mp (by simpa using hnd)).1
    have hdis' : ∀ r' ∈ t,
        ∀ p ∈ acc ++ [(r.1, (⟨r.1, dec r.2.2, r.2.1⟩ : StringTableEntry))], p.1 ≠ r'.1 := by
      intro r' hr' p hp
      rcases List.mem_append.mp hp with hp1 | hp2
      · exact hdis r' (by simp [hr']) p hp1
      · have hp2' : p = (r.1, (⟨r.1, dec r.2.2, r.2.1⟩ : StringTableEntry)) := by simpa using hp2
        subst hp2'
        intro hcon
        exact hknotin (by rw [hcon]; exact List.mem_map_of_mem _ hr')
    rw [ih _ hnd' hdis']
    simp

/-! ### Record emission and parsing -/

theorem getD_after (a b : List Nat) (n d : Nat) (h : a.length = n) :
    (a ++ b).getD n d = b.getD 0 d := by
  subst h
  simpa using getD_append_add a b 0 d

theorem stblRecords_eq (enc : List Char → List Nat) (strings : List (Nat × StringTableEntry)) :
    ∀ (ks : List Nat),
    (∀ k ∈ ks, ∃ e, dictFind strings k = some e ∧ k < 256 ^ 4 ∧ e.flags < 256 ∧
      (enc e.get_formatted_value).length < 256 ^ 2) →
    stblRecords enc strings ks =
      some ((ks.map (fun k => recB (recTriple enc strings k))).flatten) := by
  intro ks
  induction ks with
  | nil => intro _; simp [stblRecords]
  | cons k t ih =>
    intro hyp
    obtain ⟨e, he, hk, hf, hl⟩ := hyp k (by simp)
    have hrest := ih (fun k' hk' => hyp k' (by simp [hk']))
    have hkb : bytesLE 4 k = some (toLE 4 k) := by rw [bytesLE, if_pos hk]
    have hb0 : bytesLE 2 0 = some (toLE 2 0) := by rw [bytesLE]; norm_num
    by_cases hfv : e.get_formatted_value = []
    · simp [stblRecords, he, hrest, hkb, hf, hfv, hb0, recTriple, recB]
    · have hbody : bytesLE 2 (enc e.get_formatted_value).length =
          some (toLE 2 (enc e.get_formatted_value).length) := by rw [bytesLE, if_pos hl]
      simp [stblRecords, he, hrest, hkb, hf, hfv, hbody, recTriple, recB]

theorem stblLoop_parse (dec : List Nat → List Char) :
    ∀ (R : List (Nat × Nat × List Nat)) (pre : List Nat) (acc : List (Nat × StringTableEntry)),
    (∀ r ∈ R, r.1 < 256 ^ 4 ∧ r.2.1 < 256 ∧ r.2.2.length < 256 ^ 2) →
    stblLoop dec (pre ++ (R.map recB).flatten) R.length pre.length acc =
      R.foldl (fun a r => dictInsert a r.1 ⟨r.1, dec r.2.2, r.2.1⟩) acc := by
  intro R
  induction R with
  | nil => intro pre acc _; simp [stblLoop]
  | cons r t ih =>
    intro pre acc hyp
    obtain ⟨hk, hf, hl⟩ := hyp r (by simp)
    simp only [List.map_cons, List.flatten_cons, List.length_cons, List.foldl_cons]
    set rest := (t.map recB).flatten with hrest
    have hXa : recB r ++ rest =
        toLE 4 r.1 ++ ([r.2.1] ++ (toLE 2 r.2.2.length ++ (r.2.2 ++ rest))) := by
      simp [recB]
    have hXb : recB r ++ rest =
        (toLE 4 r.1 ++ [r.2.1]) ++ (toLE 2 r.2.2.length ++ (r.2.2 ++ rest)) := by
      simp [recB]
    have hXc : recB r ++ rest =
        ((toLE 4 r.1 ++ [r.2.1]) ++ toLE 2 r.2.2.length) ++ (r.2.2 ++ rest) := by
      simp [recB]
    have hlen5 : (toLE 4 r.1 ++ [r.2.1]).length = 5 := by simp [toLE_length]
    have hlen7 : ((toLE 4 r.1 ++ [r.2.1]) ++ toLE 2 r.2.2.length).length = 7 := by
      simp [toLE_length]
    have h1 : pySliceN (pre ++ (recB r ++ rest)) pre.length 4 = toLE 4 r.1 := by
      rw [pySliceN_at_len, hXa, take_append_exact _ _ _ (toLE_length 4 r.1)]
    have h2 : pyByte (pre ++ (recB r ++ rest)) (pre.length + 4) = some r.2.1 := by
      rw [pyByte, if_pos]
      · rw [getD_append_add, hXa, getD_after _ _ _ _ (toLE_length 4 r.1)]
        rfl
      · have hr7 : (recB r).length = 7 + r.2.2.length := by simp [recB, toLE_length]; omega
        simp [hr7]
        omega
    have h3 : pySliceN (pre ++ (recB r ++ rest)) (pre.length + 4 + 1) 2 =
        toLE 2 r.2.2.length := by
      have e5 : pre.length + 4 + 1 = pre.length + 5 := by omega
      rw [e5, pySliceN_append, hXb]
      have e5' : (5 : Nat) = (toLE 4 r.1 ++ [r.2.1]).length := hlen5.symm
      rw [show pySliceN ((toLE 4 r.1 ++ [r.2.1]) ++ (toLE 2 r.2.2.length ++ (r.2.2 ++ rest))) 5 2
          = pySliceN ((toLE 4 r.1 ++ [r.2.1]) ++ (toLE 2 r.2.2.length ++ (r.2.2 ++ rest)))
            ((toLE 4 r.1 ++ [r.2.1]).length + 0) 2 from by rw [hlen5]]
      rw [pySliceN_append]
      show (toLE 2 r.2.2.length ++ (r.2.2 ++ rest)).take 2 = _
      exact take_append_exact _ _ _ (toLE_length 2 _)
    have h4 : pySliceN (pre ++ (recB r ++ rest)) (pre.length + 4 + 3) r.2.2.length = r.2.2 := by
      have e7 : pre.length + 4 + 3 = pre.length + 7 := by omega
      rw [e7, pySliceN_append, hXc]
      rw [show pySliceN (((toLE 4 r.1 ++ [r.2.1]) ++ toLE 2 r.2.2.length) ++ (r.2.2 ++ rest))
            7 r.2.2.length
          = pySliceN (((toLE 4 r.1 ++ [r.2.1]) ++ toLE 2 r.2.2.length) ++ (r.2.2 ++ rest))
            (((toLE 4 r.1 ++ [r.2.1]) ++ toLE 2 r.2.2.length).length + 0) r.2.2.length from by
          rw [hlen7]]
      rw [pySliceN_append]
      show (r.2.2 ++ rest).take r.2.2.length = _
      exact take_append_exact _ _ _ rfl
    have hnext : pre.length + 4 + 3 + r.2.2.length = (pre ++ recB r).length := by
      simp [recB, toLE_length]
      omega
    rw [stblLoop, h2, h1, readLE_toLE 4 r.1 hk, h3, readLE_toLE 2 _ hl]
    dsimp only
    rw [h4, hnext,
      show pre ++ (recB r ++ rest) = (pre ++ recB r) ++ rest from (List.append_assoc _ _ _).symm]
    exact ih (pre ++ recB r) _ (fun r' h' => hyp r' (by simp [h']))

theorem stblStringsLength_aux (enc : List Char → List Nat) :
    ∀ (l : List (Nat × StringTableEntry)) (a : Nat),
    a + 7 * l.length ≤ l.foldl
      (fun acc p =>
        let fv := p.2.get_formatted_value
        if fv ≠ [] then acc + ((enc fv).length + 7) else acc + 7) a := by
  intro l
  induction l with
  | nil => intro a; simp
  | cons p t ih =>
    intro a
    rw [List.foldl_cons]
    by_cases hfv : p.2.get_formatted_value ≠ []
    · calc a + 7 * (p :: t).length
          ≤ (a + ((enc p.2.get_formatted_value).length + 7)) + 7 * t.length := by
            simp [List.length_cons]; omega
        _ ≤ _ := by
            have h := ih (a + ((enc p.2.get_formatted_value).length + 7))
            simp only [if_pos hfv]
            exact h
    · calc a + 7 * (p :: t).length ≤ (a + 7) + 7 * t.length := by
            simp [List.length_cons]; omega
        _ ≤ _ := by
            have h := ih (a + 7)
            simp only [if_neg hfv]
            exact h

theorem stblStringsLength_ge (enc : List Char → List Nat)
    (l : List (Nat × StringTableEntry)) : 7 * l.length ≤ stblStringsLength enc l := by
  have h := stblStringsLength_aux enc l 0
  rw [stblStringsLength]
  simpa using h

/-- Full encode-decode round trip for the table codec: under the data-model
invariants (unique keys, one-byte flags) and the field-width bounds, decoding
the saved bytes succeeds and returns, at every key of the original table, the
entry with the normalized (carriage-return-stripped, line-feed-escaped) value
and the original flag. -/
theorem stbl_roundtrip (enc : List Char → List Nat) (dec : List Nat → List Char)
    (T : StringTableFile)
    (hnodup : (T.strings.map Prod.fst).Nodup)
    (hbound : ∀ p ∈ T.strings, p.1 < 2 ^ 32 ∧ p.2.flags < 256 ∧
      (enc p.2.get_formatted_value).length ≤ 65535 ∧
      dec (enc p.2.get_formatted_value) = p.2.get_formatted_value)
    (hdnil : dec [] = [])
    (htot : stblStringsLength enc T.strings < 2 ^ 32) :
    (StringTableFile.load_from_binary dec (StringTableFile.save_to_binary enc T)).1 = true ∧
    ∀ k, dictFind (StringTableFile.load_from_binary dec
        (StringTableFile.save_to_binary enc T)).2.strings k =
      (dictFind T.strings k).map
        (fun e => (⟨k, e.get_formatted_value, e.flags⟩ : StringTableEntry)) := by
  classical
  set ks := List.insertionSort (fun a b => a ≤ b) (T.strings.map (fun p => p.1)) with hksdef
  have hperm : ks.Perm (T.strings.map (fun p => p.1)) := List.perm_insertionSort _ _
  have hks_nodup : ks.Nodup := (List.Perm.nodup_iff hperm).mpr (by simpa using hnodup)
  have hmemks : ∀ k, k ∈ ks ↔ k ∈ T.strings.map (fun p => p.1) := fun k => hperm.mem_iff
  have hkslen : ks.length = T.strings.length := by
    rw [hperm.length_eq, List.length_map]
  have hkey : ∀ k ∈ ks, ∃ e, dictFind T.strings k = some e ∧ k < 256 ^ 4 ∧ e.flags < 256 ∧
      (enc e.get_formatted_value).length < 256 ^ 2 := by
    intro k hk
    have hsome : (dictFind T.strings k).isSome := by
      rw [dictFind_isSome_iff]
      simpa using (hmemks k).mp hk
    obtain ⟨e, he⟩ := Option.isSome_iff_exists.mp hsome
    have hmem := dictFind_mem _ _ _ he
    obtain ⟨h1, h2, h3, _⟩ := hbound (k, e) hmem
    dsimp only at h1 h2 h3
    refine ⟨e, he, by norm_num at h1 ⊢; omega, h2, by norm_num at h3 ⊢; omega⟩
  have hcnt : T.strings.length < 256 ^ 8 := by
    have h7 := stblStringsLength_ge enc T.strings
    have e1 : (2 : Nat) ^ 32 = 4294967296 := by norm_num
    have e2 : (256 : Nat) ^ 8 = 18446744073709551616 := by norm_num
    omega
  have htot4 : stblStringsLength enc T.strings < 256 ^ 4 := by
    norm_num at htot ⊢; omega
  -- the saved byte string
  have hsave : StringTableFile.save_to_binary enc T =
      [83, 84, 66, 76] ++ toLE 2 5 ++ [0] ++ toLE 8 T.strings.length ++ [0, 0] ++
        toLE 4 (stblStringsLength enc T.strings) ++
        ((ks.map (fun k => recB (recTriple enc T.strings k))).flatten) := by
    have hnb : bytesLE 8 T.strings.length = some (toLE 8 T.strings.length) := by
      rw [bytesLE, if_pos hcnt]
    have hslb : bytesLE 4 (stblStringsLength enc T.strings) =
        some (toLE 4 (stblStringsLength enc T.strings)) := by
      rw [bytesLE, if_pos htot4]
    have hrecs := stblRecords_eq enc T.strings ks hkey
    rw [StringTableFile.save_to_binary, stblSaveE]
    simp only [← hksdef, hnb, hslb, hrecs, Option.bind_eq_bind, Option.some_bind,
      Option.pure_def, Option.getD_some]
  have h25 : toLE 2 5 = [5, 0] := rfl
  -- canonical shapes of the saved bytes
  set pre7 : List Nat := [83, 84, 66, 76, 5, 0, 0] with hpre7
  set tl8 := toLE 8 T.strings.length with htl8
  set tl4 := toLE 4 (stblStringsLength enc T.strings) with htl4
  set recsFlat := ((ks.map (fun k => recB (recTriple enc T.strings k))).flatten) with hrecsdef
  have hshape7 : StringTableFile.save_to_binary enc T =
      pre7 ++ (tl8 ++ ([0, 0] ++ (tl4 ++ recsFlat))) := by
    rw [hsave, h25]
    simp [hpre7]
  have hpre21 : StringTableFile.save_to_binary enc T =
      (pre7 ++ tl8 ++ [0, 0] ++ tl4) ++ recsFlat := by
    rw [hshape7]
    simp
  have hlen21 : (pre7 ++ tl8 ++ [0, 0] ++ tl4).length = 21 := by
    simp [hpre7, htl8, htl4, toLE_length]
  have hlen_all : (StringTableFile.save_to_binary enc T).length = 21 + recsFlat.length := by
    rw [hpre21, List.length_append, hlen21]
  -- the header reads of load_from_binary
  have hc1 : ¬((StringTableFile.save_to_binary enc T).length < 20) := by omega
  have hc2 : ¬(pySliceN (StringTableFile.save_to_binary enc T) 0 4 ≠ [83, 84, 66, 76]) := by
    rw [hshape7]
    simp [hpre7, pySliceN, List.take]
  have hc3 : ¬(readLE (pySliceN (StringTableFile.save_to_binary enc T) 4 2) ≠ 5) := by
    rw [hshape7]
    simp only [hpre7]
    show ¬(readLE (pySliceN ((83 :: 84 :: 66 :: 76 :: 5 :: 0 :: 0 :: []) ++
      (tl8 ++ ([0, 0] ++ (tl4 ++ recsFlat)))) 4 2) ≠ 5)
    simp [pySliceN, List.drop, List.take, readLE_cons, readLE]
  have hc4 : readLE (pySliceN (StringTableFile.save_to_binary enc T) 7 8) =
      T.strings.length := by
    rw [hshape7]
    have : pySliceN (pre7 ++ (tl8 ++ ([0, 0] ++ (tl4 ++ recsFlat)))) 7 8 =
        (tl8 ++ ([0, 0] ++ (tl4 ++ recsFlat))).take 8 := by
      have h7 : (7 : Nat) = pre7.length := by simp [hpre7]
      rw [h7, pySliceN_at_len]
    rw [this, take_append_exact _ _ _ (by rw [htl8, toLE_length]), htl8,
      readLE_toLE 8 _ hcnt]
  -- run the parse loop over the emitted records
  have hloop : stblLoop dec (StringTableFile.save_to_binary enc T) T.strings.length 21 [] =
      (ks.map (recTriple enc T.strings)).foldl
        (fun a r => dictInsert a r.1 ⟨r.1, dec r.2.2, r.2.1⟩) [] := by
    have hR : ((ks.map (recTriple enc T.strings)).map recB).flatten = recsFlat := by
      rw [hrecsdef, List.map_map]
      rfl
    have hRlen : (ks.map (recTriple enc T.strings)).length = T.strings.length := by
      rw [List.length_map, hkslen]
    have hRb : ∀ r ∈ ks.map (recTriple enc T.strings),
        r.1 < 256 ^ 4 ∧ r.2.1 < 256 ∧ r.2.2.length < 256 ^ 2 := by
      intro r hr
      obtain ⟨k, hkmem, hkr⟩ := List.mem_map.mp hr
      obtain ⟨e, he, hb1, hb2, hb3⟩ := hkey k hkmem
      subst hkr
      refine ⟨by simpa [recTriple] using hb1, by simpa [recTriple, he] using hb2, ?_⟩
      by_cases hfv : e.get_formatted_value = []
      · simp [recTriple, he, hfv]
      · simpa [recTriple, he, hfv] using hb3
    have h21 : (21 : Nat) = (pre7 ++ tl8 ++ [0, 0] ++ tl4).length := hlen21.symm
    calc stblLoop dec (StringTableFile.save_to_binary enc T) T.strings.length 21 []
        = stblLoop dec ((pre7 ++ tl8 ++ [0, 0] ++ tl4) ++
            ((ks.map (recTriple enc T.strings)).map recB).flatten)
            (ks.map (recTriple enc T.strings)).length
            (pre7 ++ tl8 ++ [0, 0] ++ tl4).length [] := by
          rw [hpre21, hR, hRlen, ← h21]
      _ = _ := stblLoop_parse dec _ _ [] hRb
  -- the final dict
  have hfold : (ks.map (recTriple enc T.strings)).foldl
      (fun a r => dictInsert a r.1 ⟨r.1, dec r.2.2, r.2.1⟩) [] =
      (ks.map (recTriple enc T.strings)).map
        (fun r => (r.1, (⟨r.1, dec r.2.2, r.2.1⟩ : StringTableEntry))) := by
    have hnd : ((ks.map (recTriple enc T.strings)).map (fun r => r.1)).Nodup := by
      rw [List.map_map]
      show (ks.map (fun k => k)).Nodup
      simpa using hks_nodup
    exact foldl_dictInsert_eq dec _ [] hnd (by simp)
  -- assemble the load result
  have hload : StringTableFile.load_from_binary dec (StringTableFile.save_to_binary enc T) =
      (true, ⟨(ks.map (recTriple enc T.strings)).map
        (fun r => (r.1, (⟨r.1, dec r.2.2, r.2.1⟩ : StringTableEntry)))⟩) := by
    rw [StringTableFile.load_from_binary, if_neg hc1, if_neg hc2, if_neg hc3, hc4]
    dsimp only
    rw [hloop, hfold]
  rw [hload]
  refine ⟨rfl, ?_⟩
  intro k
  -- identify the mapped list with keys ks
  have hmap2 : (ks.map (recTriple enc T.strings)).map
      (fun r => (r.1, (⟨r.1, dec r.2.2, r.2.1⟩ : StringTableEntry))) =
      ks.map (fun k => (k, (⟨k, dec ((recTriple enc T.strings k).2.2),
        (recTriple enc T.strings k).2.1⟩ : StringTableEntry))) := by
    rw [List.map_map]
    rfl
  rw [hmap2, dictFind_map_keys]
  by_cases hkm : k ∈ ks
  · rw [if_pos hkm]
    obtain ⟨e, he, _, _, _⟩ := hkey k hkm
    obtain ⟨_, _, _, hrt⟩ := hbound (k, e) (dictFind_mem _ _ _ he)
    dsimp only at hrt
    rw [he, Option.map_some']
    congr 1
    by_cases hfv : e.get_formatted_value = []
    · simp [recTriple, he, hfv, hdnil]
    · simp [recTriple, he, hfv, hrt]
  · rw [if_neg hkm]
    have hnone : dictFind T.strings k = none := by
      rw [← Option.not_isSome_iff_eq_none, dictFind_isSome_iff]
      intro hc
      exact hkm ((hmemks k).mpr (by simpa using hc))
    rw [hnone]
    rfl

/-! ### The strings-length overflow of `bigTable` -/

theorem replicate_char_ne_nil (n : Nat) (a : Char) (h : n ≠ 0) : List.replicate n a ≠ [] := by
  intro hc
  have hl := congrArg List.length hc
  simp at hl
  exact h hl

theorem fmt_rep (k n : Nat) (hn : n ≠ 0) :
    (⟨k, List.replicate n 'a', 0⟩ : StringTableEntry).get_formatted_value =
      List.replicate n 'a' := by
  rw [StringTableEntry.get_formatted_value, if_pos]
  · have hfil : (List.replicate n 'a').filter (fun c => c ≠ '\r') = List.replicate n 'a' := by
      rw [List.filter_eq_self]
      intro a ha
      have ha' : a = 'a' := List.eq_of_mem_replicate ha
      subst ha'
      decide
    rw [hfil]
    have hfm : ∀ m, (List.replicate m 'a').flatMap
        (fun c => if c = '\n' then ['\\', 'n'] else [c]) = List.replicate m 'a' := by
      intro m
      induction m with
      | zero => rfl
      | succ m ih => rw [List.replicate_succ, List.flatMap_cons, ih]; rfl
    exact hfm n
  · exact replicate_char_ne_nil n 'a' hn

theorem utf8len_rep (n : Nat) : (utf8Encode (List.replicate n 'a')).length = n := by
  induction n with
  | zero => rfl
  | succ m ih =>
    rw [List.replicate_succ]
    show (utf8EncodeChar 'a' ++ utf8Encode (List.replicate m 'a')).length = m + 1
    rw [List.length_append, ih]
    have ha : utf8EncodeChar 'a' = [97] := by decide
    rw [ha]
    show 1 + m = m + 1
    omega

theorem foldl_const_step {α : Type _} (F : Nat → α → Nat) (c : Nat)
    (h : ∀ a x, F a x = a + c) : ∀ (l : List α) (a : Nat), l.foldl F a = a + c * l.length := by
  intro l
  induction l with
  | nil => intro a; simp
  | cons x t ih =>
    intro a
    rw [List.foldl_cons, h, ih]
    rw [List.length_cons]
    ring

theorem bigT_strings_eq : bigTable.strings = bigTableStrings := by
  unfold bigTable
  with_reducible rfl

theorem bigTableStrings_eq : bigTableStrings = (List.range 65536).map
    (fun k => (k, (⟨k, List.replicate 65535 'a', 0⟩ : StringTableEntry))) := by
  unfold bigTableStrings
  with_reducible rfl

theorem stbl_len_rep_range (n L : Nat) (hL : L ≠ 0) :
    stblStringsLength utf8Encode ((List.range n).map
      (fun k => (k, (⟨k, List.replicate L 'a', 0⟩ : StringTableEntry)))) = (L + 7) * n := by
  rw [stblStringsLength, List.foldl_map]
  rw [foldl_const_step _ (L + 7) ?_, List.length_range]
  · rw [Nat.zero_add]
  · intro a k
    dsimp only
    rw [fmt_rep k L hL, if_pos (replicate_char_ne_nil L 'a' hL), utf8len_rep]

theorem bigTable_strings_length :
    stblStringsLength utf8Encode bigTable.strings = 4295360512 := by
  rw [bigT_strings_eq, bigTableStrings_eq, stbl_len_rep_range 65536 65535 (by omega)]

theorem bigTable_count : bigTable.strings.length = 65536 := by
  rw [bigT_strings_eq, bigTableStrings_eq, List.length_map, List.length_range]


/-- When the total strings length overflows the 4-byte field, `save_to_binary`
raises `OverflowError` writing it, i.e. the checked serializer yields `none`. -/
theorem stblSaveE_overflow (enc : List Char → List Nat) (f : StringTableFile)
    (hc : f.strings.length < 256 ^ 8)
    (h : 256 ^ 4 ≤ stblStringsLength enc f.strings) : stblSaveE enc f = none := by
  rw [stblSaveE]
  have hnb : bytesLE 8 f.strings.length = some (toLE 8 f.strings.length) := by
    rw [bytesLE, if_pos hc]
  have hslb : bytesLE 4 (stblStringsLength enc f.strings) = none := by
    rw [bytesLE, if_neg (by omega)]
  rw [hnb]
  simp only [Option.bind_eq_bind, Option.some_bind]
  rw [hslb]
  simp only [Option.none_bind]

theorem bigTable_save_nil : StringTableFile.save_to_binary utf8Encode bigTable = [] := by
  rw [StringTableFile.save_to_binary,
    stblSaveE_overflow utf8Encode bigTable (by rw [bigTable_count]; norm_num)
      (by rw [bigTable_strings_length]; norm_num)]
  rfl

theorem bigTable_mem_bounds : ∀ p ∈ bigTable.strings, p.1 < 2 ^ 32 ∧ p.2.flags < 256 ∧
    (utf8Encode p.2.get_formatted_value).length ≤ 65535 := by
  intro p hp
  rw [bigT_strings_eq, bigTableStrings_eq] at hp
  obtain ⟨k, hk, hpk⟩ := List.mem_map.mp hp
  have hk' : k < 65536 := List.mem_range.mp hk
  subst hpk
  refine ⟨?_, ?_, ?_⟩
  · have e1 : (2 : Nat) ^ 32 = 4294967296 := by norm_num
    dsimp only
    omega
  · dsimp only
    omega
  · dsimp only
    rw [fmt_rep k 65535 (by omega), utf8len_rep]

theorem bigTable_find_zero :
    dictFind bigTable.strings 0 = some ⟨0, List.replicate 65535 'a', 0⟩ := by
  rw [bigT_strings_eq, bigTableStrings_eq]
  rw [show (65536 : Nat) = 65535 + 1 from rfl, List.range_succ_eq_map, List.map_cons]
  rw [dictFind, List.find?_cons_of_pos _ (by rfl)]
  rfl

/-! ### Claim theorems -/

/-- Claim C1 (counterexample): the round trip fails as stated on `bigTable`,
whose keys all fit in 32 bits, whose flags are one byte and whose normalized
values each encode to exactly 65535 UTF-8 bytes; its total payload length
`65536 * 65542` overflows the 4-byte `strings_length` field, so
`save_to_binary` raises `OverflowError`, returns `b""`, and decoding yields no
table at all (key `0` is present in `bigTable` but absent after the round
trip). -/
theorem C1_counterexample :
    (∀ p ∈ bigTable.strings, p.1 < 2 ^ 32 ∧ p.2.flags < 256 ∧
      (utf8Encode p.2.get_formatted_value).length ≤ 65535) ∧
    dictFind bigTable.strings 0 = some ⟨0, List.replicate 65535 'a', 0⟩ ∧
    StringTableFile.save_to_binary utf8Encode bigTable = [] ∧
    (StringTableFile.load_from_binary dec0
      (StringTableFile.save_to_binary utf8Encode bigTable)).1 = false ∧
    dictFind (StringTableFile.load_from_binary dec0
      (StringTableFile.save_to_binary utf8Encode bigTable)).2.strings 0 = none := by
  refine ⟨bigTable_mem_bounds, bigTable_find_zero, bigTable_save_nil, ?_, ?_⟩
  · rw [bigTable_save_nil]
    decide
  · rw [bigTable_save_nil]
    decide

/-- Claim C1 (amended): for every `LocalizationTable` whose keys fit in 32
bits, whose flags fit in one byte, whose normalized values encode to at most
65535 UTF-8 bytes, and whose total encoded payload length (7 bytes per entry
plus the value bytes) is below `2^32`, decoding the buffer produced by
encoding the table succeeds and yields a table with the same key set, each
value equal to the original after stripping carriage returns and replacing
each line feed with backslash-n, and flags preserved.  The UTF-8 collaborator
pair `(enc, dec)` is assumed to round-trip on the table's normalized values
and on the empty string. -/
theorem C1_roundtrip (enc : List Char → List Nat) (dec : List Nat → List Char)
    (T : StringTableFile)
    (hnodup : (T.strings.map Prod.fst).Nodup)
    (hbound : ∀ p ∈ T.strings, p.1 < 2 ^ 32 ∧ p.2.flags < 256 ∧
      (enc p.2.get_formatted_value).length ≤ 65535 ∧
      dec (enc p.2.get_formatted_value) = p.2.get_formatted_value)
    (hdnil : dec [] = [])
    (htot : stblStringsLength enc T.strings < 2 ^ 32) :
    (StringTableFile.load_from_binary dec (StringTableFile.save_to_binary enc T)).1 = true ∧
    ∀ k, dictFind (StringTableFile.load_from_binary dec
        (StringTableFile.save_to_binary enc T)).2.strings k =
      (dictFind T.strings k).map
        (fun e => (⟨k, e.get_formatted_value, e.flags⟩ : StringTableEntry)) :=
  stbl_roundtrip enc dec T hnodup hbound hdnil htot

/-- Claim C1 (witness): the round trip on the single-entry table
`{0x1001 ↦ "Hello"}` with real UTF-8 encoding. -/
theorem C1_witness :
    (helloTable.strings.map Prod.fst).Nodup ∧
    stblStringsLength utf8Encode helloTable.strings < 2 ^ 32 ∧
    dictFind (StringTableFile.load_from_binary dec0
      (StringTableFile.save_to_binary utf8Encode helloTable)).2.strings 4097 =
      some ⟨4097, ['H', 'e', 'l', 'l', 'o'], 0⟩ := by
  refine ⟨by decide, by decide, ?_⟩
  have h := C1_roundtrip utf8Encode dec0 helloTable (by decide) (by decide) (by decide)
    (by decide)
  exact (h.2 4097).trans (by decide)

/-- Claim C2: the class-B opcode decoder (`0x80-0xBF`) consumes FOUR input
bytes, not three: after reading the distance byte it executes `iptr += 2`,
skipping the byte that follows.  Concretely, the two streams below differ only
in the byte after the three class-B opcode bytes (`0xEE` versus `0x07`) and
decode to the same output, while the conforming 3-byte stream `refIn9` (the
same opcode with no padding byte) fails instead of producing that output. -/
theorem C2_classB_eval :
    decode_ref_pack refInPadA = .ok (List.replicate 5 65) ∧
    decode_ref_pack refInPadB = .ok (List.replicate 5 65) ∧
    decode_ref_pack refIn9 = .error "IndexError" := by
  refine ⟨by decide, by decide, by decide⟩

/-- Claim C3: when the index flag word marks the high instance word constant
(bit 2), every entry parse executes the undefined-variable read of line 226
(`index_pos` does not exist in `load_from_binary`), raises `NameError` and is
skipped: `archC3a` (flag word 4, one record) produces no entries at all.  With
bit 0 set (`archC3b`, flag word 1, shared type `0xBEEF`), the shared type is
correctly applied to both entries while group and instance are read per
entry. -/
theorem C3_const_instance_eval :
    (DBPFFile.load_from_binary zd0 dec0 archC3a).2.entries = [] ∧
    (DBPFFile.load_from_binary zd0 dec0 archC3b).2.entries =
      [⟨48879, 1, 2 <<< 32 ||| 3, 0, 0⟩, ⟨48879, 4, 5 <<< 32 ||| 6, 0, 0⟩] := by
  refine ⟨by decide, by decide⟩

/-- Claim C4: saving `archC4` (whose updated string-table entry has a 28-byte
index record with no codec pair) writes the deflate codec pair over the four
bytes at offset 149, which belong to the second, untouched entry's type field:
the untouched entry's index record is not byte-for-byte preserved.  The second
entry (instance id 5) has no decoded table, so it is not an updated entry. -/
theorem C4_save_clobbers :
    dictFind (DBPFFile.load_from_binary zd0 dec0 archC4).2.string_tables 5 = none ∧
    pySliceN archC4 149 4 = [17, 17, 17, 17] ∧
    pySliceN (DBPFFile.save_to_binary utf8Encode zcId
      (DBPFFile.load_from_binary zd0 dec0 archC4).2 archC4) 149 4 = [66, 90, 1, 0] ∧
    pySliceN (DBPFFile.save_to_binary utf8Encode zcId
      (DBPFFile.load_from_binary zd0 dec0 archC4).2 archC4) 149 4 ≠
      pySliceN archC4 149 4 := by
  refine ⟨by decide, by decide, by decide, by decide⟩

/-- Claim C5: the RefPack copy loop (`copyLoop`, invoked by `refLoop` for
every opcode with a nonzero copy count) copies byte-at-a-time from
`distance + 1` positions behind the advancing cursor: position `optr + j`
receives the byte at `optr - (off+1) + (j % (off+1))` of the pre-copy buffer
(the periodic expansion of the trailing pattern), and whenever `j ≥ off + 1`
the byte written at `optr + j` equals the byte the same copy wrote
`off + 1` positions earlier. -/
theorem C5_copy_semantics (cnt off : Nat) (obuf : List Nat) (optr : Nat)
    (h1 : off + 1 ≤ optr) (h2 : optr + cnt ≤ obuf.length) :
    ∃ r, copyLoop cnt off obuf optr = .ok (r, optr + cnt) ∧ r.length = obuf.length ∧
      (∀ j, j < cnt → r.getD (optr + j) 0 =
        obuf.getD (optr - (off + 1) + j % (off + 1)) 0) ∧
      (∀ j, off + 1 ≤ j → j < cnt → r.getD (optr + j) 0 = r.getD (optr + j - (off + 1)) 0) := by
  obtain ⟨r, hr, hlen, hpt⟩ := copyLoop_spec off cnt obuf optr h1 h2
  refine ⟨r, hr, hlen, ?_, ?_⟩
  · intro j hj
    have h := hpt (optr + j)
    rw [if_pos ⟨by omega, by omega⟩] at h
    have e1 : optr + j - optr = j := by omega
    rw [h, e1]
  · intro j hPj hj
    have ha := hpt (optr + j)
    rw [if_pos ⟨by omega, by omega⟩] at ha
    have hb := hpt (optr + j - (off + 1))
    rw [if_pos ⟨by omega, by omega⟩] at hb
    have e1 : optr + j - optr = j := by omega
    have e2 : optr + j - (off + 1) - optr = j - (off + 1) := by omega
    rw [ha, hb, e1, e2]
    have hm : j % (off + 1) = (j - (off + 1)) % (off + 1) := by
      conv_lhs => rw [show j = (j - (off + 1)) + (off + 1) from by omega]
      rw [Nat.add_mod_right]
    rw [hm]

/-- Claim C5 (witness): copying 4 bytes at distance 1 from a single seed byte
expands it into a run. -/
theorem C5_witness :
    0 + 1 ≤ 1 ∧ 1 + 4 ≤ ([65, 0, 0, 0, 0] : List Nat).length ∧
    ∃ r, copyLoop 4 0 [65, 0, 0, 0, 0] 1 = .ok (r, 1 + 4) ∧
      r.length = ([65, 0, 0, 0, 0] : List Nat).length ∧
      (∀ j, j < 4 → r.getD (1 + j) 0 =
        ([65, 0, 0, 0, 0] : List Nat).getD (1 - (0 + 1) + j % (0 + 1)) 0) ∧
      (∀ j, 0 + 1 ≤ j → j < 4 → r.getD (1 + j) 0 = r.getD (1 + j - (0 + 1)) 0) :=
  ⟨by decide, by decide, C5_copy_semantics 4 0 [65, 0, 0, 0, 0] 1 (by decide) (by decide)⟩

/-- Claim C6: any buffer that is shorter than 96 bytes, lacks the `DBPF`
magic, has a format version other than (2, 1) or a user version other than
(0, 0) makes `load_from_binary` return the failure flag with the untouched
empty model - a total function, so no crash, and the failure is explicit. -/
theorem C6_header_rejects (zd : List Nat → Nat → Option (List Nat))
    (dec : List Nat → List Char) (data : List Nat)
    (h : data.length < 96 ∨ pySliceN data 0 4 ≠ [68, 66, 80, 70] ∨
      ¬(readLE (pySliceN data 4 4) = 2 ∧ readLE (pySliceN data 8 4) = 1) ∨
      ¬(readLE (pySliceN data 12 4) = 0 ∧ readLE (pySliceN data 16 4) = 0)) :
    DBPFFile.load_from_binary zd dec data = (false, ⟨none, [], []⟩) := by
  rw [DBPFFile.load_from_binary, loadCore_header_fail zd dec data h]
  rfl

/-- Claim C6 (witness): the empty buffer is rejected. -/
theorem C6_witness :
    ([] : List Nat).length < 96 ∧
    DBPFFile.load_from_binary zd0 dec0 [] = (false, ⟨none, [], []⟩) :=
  ⟨by decide, C6_header_rejects zd0 dec0 [] (Or.inl (by decide))⟩

/-- Claim C7 (counterexample): `archC7a` parses its header and index and
records its single entry, but that entry's RefPack payload has an invalid
signature, so no table decodes and `load_from_binary` returns failure - the
load of the archive does NOT succeed when zero other entries decode. -/
theorem C7_counterexample :
    (DBPFFile.load_from_binary zd0 dec0 archC7a).1 = false ∧
    (DBPFFile.load_from_binary zd0 dec0 archC7a).2.entries.length = 1 ∧
    (DBPFFile.load_from_binary zd0 dec0 archC7a).2.header ≠ none := by
  refine ⟨by decide, by decide, by decide⟩

/-- Claim C7 (amended): a decompression or decode failure of one entry is
recorded for that entry and skipped without aborting the index walk, but the
overall load succeeds if and only if at least one string table decoded:
on `archC7b` the first entry's bad payload is skipped while the second decodes,
so both entries are listed, one table is recorded, and the load succeeds. -/
theorem C7_entry_local :
    (∀ (zd : List Nat → Nat → Option (List Nat)) (dec : List Nat → List Char)
      (data : List Nat),
      (DBPFFile.load_from_binary zd dec data).1 = true ↔
        (DBPFFile.load_from_binary zd dec data).2.string_tables ≠ []) ∧
    (DBPFFile.load_from_binary zd0 dec0 archC7b).1 = true ∧
    (DBPFFile.load_from_binary zd0 dec0 archC7b).2.entries.length = 2 ∧
    (DBPFFile.load_from_binary zd0 dec0 archC7b).2.string_tables = [(2, ⟨[]⟩)] := by
  refine ⟨load_ok_iff_tables, by decide, by decide, by decide⟩

/-- Claim C8: an index record whose size field has the compression bit set
and whose codec id is none of stored/deflate/RefPack/deleted is a failure
confined to that entry: the entry is still appended to the entry list, no
table is recorded, the position advances past the whole 32-byte record, and
the loop goes on to the remaining records. -/
theorem C8_unknown_codec (data : List Nat) (zd : List Nat → Nat → Option (List Nat))
    (dec : List Nat → List Char) (st : IdxState)
    (hbit : readLE (pySliceN data (st.pos + 4 + 4 + 12) 4) &&& 0x80000000 ≠ 0)
    (h1 : readLE (pySliceN data (st.pos + 4 + 4 + 20) 2) ≠ 0)
    (h2 : readLE (pySliceN data (st.pos + 4 + 4 + 20) 2) ≠ 0x5A42)
    (h3 : readLE (pySliceN data (st.pos + 4 + 4 + 20) 2) ≠ 0xFFFE)
    (h4 : readLE (pySliceN data (st.pos + 4 + 4 + 20) 2) ≠ 0xFFFF)
    (h5 : readLE (pySliceN data (st.pos + 4 + 4 + 20) 2) ≠ 0xFFE0) :
    indexStep data zd dec ⟨none, none, false⟩ st =
      ⟨st.pos + 4 + 4 + 20 + 4,
       st.entries ++
         [⟨readLE (pySliceN data st.pos 4), readLE (pySliceN data (st.pos + 4) 4),
           readLE (pySliceN data (st.pos + 4 + 4) 4) <<< 32 |||
             readLE (pySliceN data (st.pos + 4 + 4 + 4) 4),
           readLE (pySliceN data (st.pos + 4 + 4 + 8) 4),
           readLE (pySliceN data (st.pos + 4 + 4 + 12) 4) &&& 0x7FFFFFFF⟩],
       st.string_tables⟩ ∧
    ∀ n, indexLoop data zd dec ⟨none, none, false⟩ (n + 1) st =
      indexLoop data zd dec ⟨none, none, false⟩ n
        (indexStep data zd dec ⟨none, none, false⟩ st) :=
  ⟨indexStep_unknown_codec data zd dec st hbit h1 h2 h3 h4 h5, fun _ => rfl⟩

/-- Claim C8 (witness): a concrete string-table record with codec id `0x1234`
is appended as an entry with no table. -/
theorem C8_witness :
    (readLE (pySliceN rec8 ((⟨0, [], []⟩ : IdxState).pos + 4 + 4 + 12) 4) &&&
      0x80000000 ≠ 0) ∧
    readLE (pySliceN rec8 ((⟨0, [], []⟩ : IdxState).pos + 4 + 4 + 20) 2) = 0x1234 ∧
    indexStep rec8 zd0 dec0 ⟨none, none, false⟩ ⟨0, [], []⟩ =
      ⟨32, [⟨0x220557DA, 9, 1 <<< 32 ||| 2, 50, 10⟩], []⟩ := by
  refine ⟨by decide, by decide, ?_⟩
  have h := C8_unknown_codec rec8 zd0 dec0 ⟨0, [], []⟩ (by decide) (by decide) (by decide)
    (by decide) (by decide) (by decide)
  exact h.1.trans (by decide)

/-- Claim C9 (counterexample): on `refGrow` - declared decoded size 1, then a
terminal opcode carrying 3 literal bytes - `decode_ref_pack` does not fail: the
bytearray slice assignment silently grows the 1-byte pre-sized buffer and the
call returns the 3-byte buffer `ABC`. -/
theorem C9_counterexample :
    readBEbytes refGrow 2 3 = some 1 ∧
    decode_ref_pack refGrow = .ok [65, 66, 67] := by
  refine ⟨by decide, by decide⟩

/-- Claim C9 (amended): the output buffer is pre-sized to the decoded-size
field; a copy opcode that would write at or past its end always raises (an
`IndexError`, surfacing as a failure), but a literal run extending past the
end silently grows the buffer through Python slice assignment, as `refGrow`
shows: the result exceeds the declared size instead of failing. -/
theorem C9_overflow_behavior :
    (∀ (cnt off : Nat) (obuf : List Nat) (optr : Nat), cnt ≠ 0 → obuf.length ≤ optr →
      ∃ e, copyLoop cnt off obuf optr = .error e) ∧
    readBEbytes refGrow 2 3 = some 1 ∧
    decode_ref_pack refGrow = .ok [65, 66, 67] := by
  refine ⟨fun cnt off obuf optr hc ho => copyLoop_overflow cnt off obuf optr hc ho,
    by decide, by decide⟩

/-- Claim C9 (witness): a copy writing at the end of a full buffer errors. -/
theorem C9_witness :
    (1 : Nat) ≠ 0 ∧ ([5] : List Nat).length ≤ 1 ∧
    ∃ e, copyLoop 1 0 [5] 1 = .error e :=
  ⟨by decide, by decide, C9_overflow_behavior.1 1 0 [5] 1 (by decide) (by decide)⟩

/-- Claim C10: the first save pass appends one compressed re-encoded table
for every entry whose type is the string-table type and whose instance id has
a decoded table - there is no modified-contents check anywhere in the model.
Concretely, saving the freshly loaded (hence unmodified) `arch10` still grows
the file by the 21-byte re-encoded empty table, repoints the entry's offset
field at the appended copy (offset 135 = the original length), and forces the
codec pair to deflate `(0x5A42, 1)`. -/
theorem C10_rewrite_all_decoded :
    (∀ (enc : List Char → List Nat) (zc : List Nat → List Nat)
      (tables : List (Nat × StringTableFile)) (entries : List DBPFEntry)
      (data0 : List Nat) (upd0 : List (Nat × (Nat × Nat × Nat))),
      (savePass1 enc zc tables entries (data0, upd0)).1 =
        data0 ++ (List.flatten ((entries.filter
          (fun e => e.type_id == STBL_TYPE && (dictFind tables e.instance_id).isSome)).map
          (fun e => zc (StringTableFile.save_to_binary enc
            ((dictFind tables e.instance_id).getD ⟨[]⟩)))))) ∧
    (DBPFFile.load_from_binary zd10 dec0 arch10).2.string_tables = [(7, ⟨[]⟩)] ∧
    (DBPFFile.save_to_binary utf8Encode zcId
      (DBPFFile.load_from_binary zd10 dec0 arch10).2 arch10).length = arch10.length + 21 ∧
    pySliceN (DBPFFile.save_to_binary utf8Encode zcId
      (DBPFFile.load_from_binary zd10 dec0 arch10).2 arch10) 119 4 = toLE 4 135 ∧
    pySliceN (DBPFFile.save_to_binary utf8Encode zcId
      (DBPFFile.load_from_binary zd10 dec0 arch10).2 arch10) 131 4 = [66, 90, 1, 0] ∧
    pySliceN (DBPFFile.save_to_binary utf8Encode zcId
      (DBPFFile.load_from_binary zd10 dec0 arch10).2 arch10) 135 21 = stblEmptyBytes := by
  refine ⟨savePass1_append, by decide, by decide, by decide, by decide, by decide⟩
